import Mathlib

/-!
# Verification of the RediSearch default extension (`src/ext/default.c`)

Shallow embedding of the default scorers (TF-IDF, TF-IDF doc-length
normalized, BM25, DisMax, Hamming distance, raw document score) and the
query expanders (stemmer, default combinator with phonetic gating) of the
RediSearch default extension, together with proofs of the specified
properties.

Doubles are modelled as rationals (`ℚ`): the C code computes with IEEE
doubles, the spec states the algebraic formulas; the embedding takes the
real-arithmetic semantics of those formulas.  Machine counters
(`freq`, `maxFreq`, `len`, offsets) are modelled as `ℕ`.  Byte buffers
(payloads) are lists of naturals below 256.
-/

namespace RediSearch

/-- Per-term statistics referenced by a `Term` result node (`RSQueryTerm`):
only the precomputed inverse document frequency is consumed by scoring. -/
structure RSQueryTerm where
  idf : ℚ
deriving Repr, DecidableEq

/-- The polymorphic result tree (`IndexResult` and its subclasses in the
source): leaf kinds `term` (with optional term statistics) and `virt`
(virtual, no term statistics); composite kinds `agg` (generic aggregate),
`intersect` and `union`, each holding an ordered list of children.
Every node carries its `weight`, its `freq` occurrence count and the
ordered offsets it matched at. -/
inductive IndexResult where
  | term (weight : ℚ) (freq : ℕ) (tm : Option RSQueryTerm) (offsets : List ℕ)
  | virt (weight : ℚ) (freq : ℕ) (offsets : List ℕ)
  | agg (weight : ℚ) (freq : ℕ) (offsets : List ℕ) (children : List IndexResult)
  | intersect (weight : ℚ) (freq : ℕ) (offsets : List ℕ) (children : List IndexResult)
  | union (weight : ℚ) (freq : ℕ) (offsets : List ℕ) (children : List IndexResult)
deriving Repr

/-- Document metadata (`RSDocumentMetadata`): the static document score,
the maximum term frequency in the document, the weighted token count and
the optional payload buffer. -/
structure RSDocumentMetadata where
  score : ℚ
  maxFreq : ℕ
  len : ℕ
  payload : Option (List ℕ)
deriving Repr, DecidableEq

/-- Index statistics (`RSIndexStats`): only `avgDocLen` is consumed. -/
structure RSIndexStats where
  avgDocLen : ℚ
deriving Repr, DecidableEq

/-- Scorer arguments (`ScorerArgs`): snapshot of the index statistics, the
query-supplied payload, and whether an explain tree was requested (the
`explain` pointer being non-null in the source). -/
structure ScorerArgs where
  indexStats : RSIndexStats
  payload : List ℕ
  explain : Bool
deriving Repr, DecidableEq

/-- An explain-tree node (`ScoreExplain`): a formatted description string
plus the collected child explanations (child pointers in the source, hence
possibly absent). -/
inductive ScoreExplain where
  | node (str : String) (children : List (Option ScoreExplain))
deriving Repr

/-- `NORM_MAXFREQ`: normalize TF by max frequency. -/
def NORM_MAXFREQ : ℕ := 1

/-- `NORM_DOCLEN`: normalize TF by number of tokens (weighted). -/
def NORM_DOCLEN : ℕ := 2

namespace IndexResult

mutual

/-- The recursive TF-IDF node scorer together with its explain output.
`ex` models whether the `explain` pointer is non-null.  Leaves:
`TermResult::TFIDFScorer` returns `weight * freq * idf` (idf `0` when the
node has no term statistics); the base `IndexResult::TFIDFScorer` (virtual
nodes) returns `weight * freq`.  Composites use
`AggregateResult::TFIDFScorer`: sum the children (passing a null explain
pointer down when none was requested, collecting the children's explain
nodes otherwise) and multiply by the node's weight.  The dispatch of the
composite kinds (`intersect`, `union`) to the aggregate behaviour is the
class hierarchy declared in headers outside `src/`; it follows the spec's
dispatch rule (a composite kind with no TF-IDF override inherits the
generic aggregate behaviour). -/
def TFIDFScorerNode (ex : Bool) : IndexResult → ℚ × Option ScoreExplain
  | .term w f tm _ =>
      let idf : ℚ := match tm with | some t => t.idf | none => 0
      let score := w * (f : ℚ) * idf
      (score, if ex then some (.node s!"(TFIDF {score} = Weight {w} * TF {f} * IDF {idf})" []) else none)
  | .virt w f _ =>
      (w * (f : ℚ), if ex then some (.node s!"(TFIDF {w * (f : ℚ)} = Weight {w} * Frequency {f})" []) else none)
  | .agg w _ _ cs => TFIDFScorerAgg ex w cs
  | .intersect w _ _ cs => TFIDFScorerAgg ex w cs
  | .union w _ _ cs => TFIDFScorerAgg ex w cs

/-- Body of `AggregateResult::TFIDFScorer`: the non-explain branch sums the
children with a null explain pointer; the explain branch sums the children
and collects their explain nodes. -/
def TFIDFScorerAgg (ex : Bool) (w : ℚ) (cs : List IndexResult) : ℚ × Option ScoreExplain :=
  if ex then
    let rs := TFIDFScorerList true cs
    let score := (rs.map Prod.fst).sum
    (w * score, some (.node s!"(Weight {w} * total children TFIDF {score})" (rs.map Prod.snd)))
  else
    let rs := TFIDFScorerList false cs
    (w * (rs.map Prod.fst).sum, none)

/-- The child loop of `AggregateResult::TFIDFScorer`. -/
def TFIDFScorerList (ex : Bool) : List IndexResult → List (ℚ × Option ScoreExplain)
  | [] => []
  | c :: cs => TFIDFScorerNode ex c :: TFIDFScorerList ex cs

end

end IndexResult

/-- BM25 constant `b = 0.5` (function-local static in the source). -/
def bm25_b : ℚ := 1/2

/-- BM25 constant `k1 = 1.2` (function-local static in the source). -/
def bm25_k1 : ℚ := 6/5

namespace IndexResult

mutual

/-- The recursive BM25 node scorer with its explain output.
`TermResult::BM25Scorer` returns `idf * f / (f + k1*(1 - b + b*avgDocLen))`
(idf `0` without term statistics, and no weight factor); the base
`IndexResult::BM25Scorer` (virtual nodes) returns
`weight * f / (f + k1*(1 - b + b*avgDocLen))` when `f` is non-zero and `0`
otherwise; composites use `AggregateResult::BM25Scorer` (sum of children,
times the node's weight).  As for TF-IDF, the dispatch of `intersect` and
`union` to the aggregate behaviour follows the spec's dispatch rule, the
class hierarchy being declared in headers outside `src/`. -/
def BM25ScorerNode (ex : Bool) (avgDocLen : ℚ) : IndexResult → ℚ × Option ScoreExplain
  | .term _ f tm _ =>
      let idf : ℚ := match tm with | some t => t.idf | none => 0
      let score := idf * (f : ℚ) / ((f : ℚ) + bm25_k1 * (1 - bm25_b + bm25_b * avgDocLen))
      (score, if ex then some (.node s!"({score} = IDF {idf} * F {f} / ...)" []) else none)
  | .virt w f _ =>
      if f ≠ 0 then
        let score := w * (f : ℚ) / ((f : ℚ) + bm25_k1 * (1 - bm25_b + bm25_b * avgDocLen))
        (score, if ex then some (.node s!"({score} = Weight {w} * F {f} / ...)" []) else none)
      else
        (0, if ex then some (.node "Frequency 0 -> value 0" []) else none)
  | .agg w _ _ cs => BM25ScorerAgg ex avgDocLen w cs
  | .intersect w _ _ cs => BM25ScorerAgg ex avgDocLen w cs
  | .union w _ _ cs => BM25ScorerAgg ex avgDocLen w cs
termination_by r => (sizeOf r, 0)

/-- Body of `AggregateResult::BM25Scorer`: sum the children in either
branch, collect their explain nodes in the explain branch, then multiply
by the node's weight (`score *= weight`). -/
def BM25ScorerAgg (ex : Bool) (avgDocLen : ℚ) (w : ℚ) (cs : List IndexResult) :
    ℚ × Option ScoreExplain :=
  if ex then
    let rs := BM25ScorerList true avgDocLen cs
    let score := (rs.map Prod.fst).sum
    (score * w, some (.node s!"(Weight {w} * children BM25 {score})" (rs.map Prod.snd)))
  else
    let rs := BM25ScorerList false avgDocLen cs
    ((rs.map Prod.fst).sum * w, none)
termination_by (sizeOf cs, 1)

/-- The child loop of `AggregateResult::BM25Scorer`. -/
def BM25ScorerList (ex : Bool) (avgDocLen : ℚ) : List IndexResult → List (ℚ × Option ScoreExplain)
  | [] => []
  | c :: cs => BM25ScorerNode ex avgDocLen c :: BM25ScorerList ex avgDocLen cs
termination_by l => (sizeOf l, 0)

end

mutual

/-- The recursive DisMax node scorer with its explain output.  The base
`IndexResult::DisMaxScorer` (term and virtual leaves) returns
`weight * freq`; `IntersectResult::DisMaxScorer` sums its children and
multiplies by the weight; `UnionResult::DisMaxScorer` takes the running
maximum (starting at `0`) of its children and multiplies by the weight.
The source under `src/` defines no DisMax override for the generic
aggregate kind; per the spec's dispatch rule (the class hierarchy lives in
headers outside `src/`) a composite kind without an override inherits the
generic aggregate behaviour, i.e. weight times the sum of the children. -/
def DisMaxScorerNode (ex : Bool) : IndexResult → ℚ × Option ScoreExplain
  | .term w f _ _ =>
      (w * (f : ℚ), if ex then some (.node s!"DISMAX {w * (f : ℚ)} = Weight {w} * Frequency {f}" []) else none)
  | .virt w f _ =>
      (w * (f : ℚ), if ex then some (.node s!"DISMAX {w * (f : ℚ)} = Weight {w} * Frequency {f}" []) else none)
  | .agg w _ _ cs => DisMaxScorerSum ex w cs
  | .intersect w _ _ cs => DisMaxScorerSum ex w cs
  | .union w _ _ cs => DisMaxScorerMax ex w cs
termination_by r => (sizeOf r, 0)

/-- Body of `IntersectResult::DisMaxScorer` (and of the spec's generic
aggregate DisMax behaviour): sum of the children times the weight. -/
def DisMaxScorerSum (ex : Bool) (w : ℚ) (cs : List IndexResult) : ℚ × Option ScoreExplain :=
  if ex then
    let rs := DisMaxScorerList true cs
    let score := (rs.map Prod.fst).sum
    (w * score, some (.node s!"{w * score} = Weight {w} * children DISMAX {score}" (rs.map Prod.snd)))
  else
    let rs := DisMaxScorerList false cs
    (w * (rs.map Prod.fst).sum, none)
termination_by (sizeOf cs, 1)

/-- Body of `UnionResult::DisMaxScorer`: `score = 0` then
`score = MAX(score, child)` over the children, times the weight. -/
def DisMaxScorerMax (ex : Bool) (w : ℚ) (cs : List IndexResult) : ℚ × Option ScoreExplain :=
  if ex then
    let rs := DisMaxScorerList true cs
    let score := (rs.map Prod.fst).foldl max 0
    (w * score, some (.node s!"{w * score} = Weight {w} * children DISMAX {score}" (rs.map Prod.snd)))
  else
    let rs := DisMaxScorerList false cs
    (w * (rs.map Prod.fst).foldl max 0, none)
termination_by (sizeOf cs, 1)

/-- The child loop of the composite DisMax scorers. -/
def DisMaxScorerList (ex : Bool) : List IndexResult → List (ℚ × Option ScoreExplain)
  | [] => []
  | c :: cs => DisMaxScorerNode ex c :: DisMaxScorerList ex cs
termination_by l => (sizeOf l, 0)

end

end IndexResult

/-- Adjacent differences of an ordered offset list. -/
def adjDeltas : List ℕ → List ℕ
  | a :: b :: rest => (b - a) :: adjDeltas (b :: rest)
  | _ => []

/-- Minimum of two optional naturals, `none` meaning "no value yet". -/
def optMin : Option ℕ → Option ℕ → Option ℕ
  | none, b => b
  | some a, none => some a
  | some a, some b => some (min a b)

/-- Minimum adjacent delta of an offset list, when one exists. -/
def minAdj (o : List ℕ) : Option ℕ :=
  (adjDeltas o).foldr (fun d acc => optMin (some d) acc) none

namespace IndexResult

mutual

/-- Modelled from the spec: the body of `IndexResult::MinOffsetDelta` is
defined outside `src/`; per the spec it computes "the minimum positional
gap between matched-term offsets across the whole subtree (recursively,
taking the smallest adjacent-offset delta found anywhere in the tree)".
This returns that minimum when any adjacent pair exists. -/
def minOffsetDeltaTree : IndexResult → Option ℕ
  | .term _ _ _ o => minAdj o
  | .virt _ _ o => minAdj o
  | .agg _ _ o cs => optMin (minAdj o) (minOffsetDeltaForest cs)
  | .intersect _ _ o cs => optMin (minAdj o) (minOffsetDeltaForest cs)
  | .union _ _ o cs => optMin (minAdj o) (minOffsetDeltaForest cs)

/-- Modelled from the spec: minimum adjacent-offset delta over a forest. -/
def minOffsetDeltaForest : List IndexResult → Option ℕ
  | [] => none
  | c :: cs => optMin (minOffsetDeltaTree c) (minOffsetDeltaForest cs)

end

/-- Modelled from the spec: `MinOffsetDelta` (the slop), defined outside
`src/`.  "A gap of 0 must be treated as 1 to avoid division by zero", and
a tree with no adjacent offsets at all yields the tightest gap `1`. -/
def MinOffsetDelta (r : IndexResult) : ℕ :=
  max 1 ((minOffsetDeltaTree r).getD 1)

/-- The internal common top-level TF-IDF function
(`IndexResult::TFIDFScorer(args, dmd, minScore, normMode)` in the source),
where just the normalization method changes: return `0` when the document
score is `0`; pick `norm` as `maxFreq` (`NORM_MAXFREQ`) or `len`
(`NORM_DOCLEN`); compute `tfidf = dmd.score * rawTfidf / norm`; return `0`
when `tfidf` is below `minScore`; otherwise divide by the slop. -/
def TFIDFScorerTop (r : IndexResult) (args : ScorerArgs) (dmd : RSDocumentMetadata)
    (minScore : ℚ) (normMode : ℕ) : ℚ :=
  if dmd.score = 0 then 0
  else
    let norm : ℕ := if normMode = NORM_MAXFREQ then dmd.maxFreq else dmd.len
    let rawTfidf := (TFIDFScorerNode args.explain r).1
    let tfidf := dmd.score * rawTfidf / (norm : ℚ)
    if tfidf < minScore then 0
    else tfidf / (MinOffsetDelta r : ℚ)

end IndexResult

/-- The registered default TF-IDF scorer (`TFIDFScorer` in the source):
sum(TF-IDF) * document score, TF normalized by maximum frequency. -/
def TFIDFScorer (args : ScorerArgs) (result : IndexResult) (dmd : RSDocumentMetadata)
    (minScore : ℚ) : ℚ :=
  result.TFIDFScorerTop args dmd minScore NORM_MAXFREQ

/-- The registered doc-length-normalized TF-IDF scorer
(`TFIDFNormDocLenScorer` in the source): identical, only the normalization
is by total weighted frequency in the doc. -/
def TFIDFNormDocLenScorer (args : ScorerArgs) (result : IndexResult) (dmd : RSDocumentMetadata)
    (minScore : ℚ) : ℚ :=
  result.TFIDFScorerTop args dmd minScore NORM_DOCLEN

/-- The registered BM25 scorer (`BM25Scorer` in the source):
`score = dmd.score * bm25res`; return `0` when below `minScore`; otherwise
divide by the slop. -/
def BM25Scorer (args : ScorerArgs) (r : IndexResult) (dmd : RSDocumentMetadata)
    (minScore : ℚ) : ℚ :=
  let bm25res := (IndexResult.BM25ScorerNode args.explain args.indexStats.avgDocLen r).1
  let score := dmd.score * bm25res
  if score < minScore then 0
  else score / (r.MinOffsetDelta : ℚ)

/-- The registered DisMax scorer (`DisMaxScorer` in the source): just the
node-level DisMax value, no document-score factor, no threshold check, no
proximity division. -/
def DisMaxScorer (args : ScorerArgs) (h : IndexResult) (dmd : RSDocumentMetadata)
    (minScore : ℚ) : ℚ :=
  (IndexResult.DisMaxScorerNode args.explain h).1

/-- The registered raw document-score scorer (`DocScoreScorer`): returns
the document's static score unmodified. -/
def DocScoreScorer (args : ScorerArgs) (r : IndexResult) (dmd : RSDocumentMetadata)
    (minScore : ℚ) : ℚ :=
  dmd.score

/-- The per-byte popcount lookup table (`bitsinbyte`, taken from redis
bitops.c). -/
def bitsinbyte : List ℕ :=
  [0, 1, 1, 2, 1, 2, 2, 3, 1, 2, 2, 3, 2, 3, 3, 4, 1, 2, 2, 3, 2, 3, 3, 4, 2, 3, 3, 4, 3, 4, 4, 5,
   1, 2, 2, 3, 2, 3, 3, 4, 2, 3, 3, 4, 3, 4, 4, 5, 2, 3, 3, 4, 3, 4, 4, 5, 3, 4, 4, 5, 4, 5, 5, 6,
   1, 2, 2, 3, 2, 3, 3, 4, 2, 3, 3, 4, 3, 4, 4, 5, 2, 3, 3, 4, 3, 4, 4, 5, 3, 4, 4, 5, 4, 5, 5, 6,
   2, 3, 3, 4, 3, 4, 4, 5, 3, 4, 4, 5, 4, 5, 5, 6, 3, 4, 4, 5, 4, 5, 5, 6, 4, 5, 5, 6, 5, 6, 6, 7,
   1, 2, 2, 3, 2, 3, 3, 4, 2, 3, 3, 4, 3, 4, 4, 5, 2, 3, 3, 4, 3, 4, 4, 5, 3, 4, 4, 5, 4, 5, 5, 6,
   2, 3, 3, 4, 3, 4, 4, 5, 3, 4, 4, 5, 4, 5, 5, 6, 3, 4, 4, 5, 4, 5, 5, 6, 4, 5, 5, 6, 5, 6, 6, 7,
   2, 3, 3, 4, 3, 4, 4, 5, 3, 4, 4, 5, 4, 5, 5, 6, 3, 4, 4, 5, 4, 5, 5, 6, 4, 5, 5, 6, 5, 6, 6, 7,
   3, 4, 4, 5, 4, 5, 5, 6, 4, 5, 5, 6, 5, 6, 6, 7, 4, 5, 5, 6, 5, 6, 6, 7, 5, 6, 6, 7, 6, 7, 7, 8]

/-- The registered Hamming-distance scorer (`HammingDistanceScorer`):
return `0` unless the document payload exists, is non-empty and has the
same length as the query payload; otherwise count the differing bits of
the two buffers byte-wise through the popcount table and return
`1 / (nbits + 1)`. -/
def HammingDistanceScorer (args : ScorerArgs) (h : IndexResult) (dmd : RSDocumentMetadata)
    (minScore : ℚ) : ℚ :=
  match dmd.payload with
  | none => 0
  | some p =>
    if p.length = 0 ∨ p.length ≠ args.payload.length then 0
    else
      let nbits := ((args.payload.zip p).map
        (fun q => bitsinbyte.getD ((q.1 ^^^ q.2) % 256) 0)).sum
      1 / ((nbits : ℚ) + 1)

/-- Modelled from the spec: the concrete value of the `STEM_PREFIX` byte
is defined in a header outside `src/`; the spec only requires "a one-byte
stem marker" prefixed to stems. -/
def STEM_PREFIX : Char := '+'

namespace StemmerExpander

/-- The latin branch of `StemmerExpander::Expand` (lines 415-429 of
`default.c`), given the result of the external snowball call
`sb_stemmer_stem` (`none` models a null `stemmed` pointer, `some st` a
successful stem of length `sl = st.length`).  Returns the list of tokens
passed to `ExpandToken`, in order: the stem prefixed by `STEM_PREFIX`,
then — only when `sl != token->length() || strncmp(stemmed,
token->str.data(), token->length())` — a copy of the raw stem
(`rm_strndup(stemmed, sl)`). -/
def ExpandLatin (stemmed : Option (List Char)) (token : List Char) : List (List Char) :=
  match stemmed with
  | none => []
  | some st =>
    let dup := STEM_PREFIX :: st
    if st.length ≠ token.length ∨ st.take token.length ≠ token then [dup, st]
    else [dup]

end StemmerExpander

/-- The per-query phonetic tri-state (`PHONETIC_DEFAULT`,
`PHONETIC_ENABLED`, `PHONETIC_DESABLED` in headers outside `src/`). -/
inductive PhoneticOpt where
  | default
  | enabled
  | disabled
deriving Repr, DecidableEq

/-- A field specification; only the phonetic capability
(`FieldSpec::IsPhonetics`) is consumed here. -/
structure FieldSpec where
  phonetics : Bool
deriving Repr, DecidableEq

/-- The slice of `IndexSpec` consumed by the default expander: the ordered
field specifications and the `Index_HasPhonetic` flag bit. -/
structure IndexSpec where
  fields : List FieldSpec
  hasPhonetic : Bool
deriving Repr, DecidableEq

/-- Modelled from the spec: `RS_FIELDMASK_ALL` (the all-ones field mask)
is defined in a header outside `src/`; the mask type is a 128-bit
integer. -/
def RS_FIELDMASK_ALL : ℕ := 2 ^ 128 - 1

/-- Modelled from the spec: `IndexSpec::CheckPhoneticEnabled` is defined
outside `src/`; per the spec it reports whether "the index has any
phonetically-enabled field matching the token's field mask". -/
def CheckPhoneticEnabled (spec : IndexSpec) (fieldMask : ℕ) : Bool :=
  (List.range spec.fields.length).any
    (fun ii => fieldMask.testBit ii && (spec.fields.getD ii ⟨false⟩).phonetics)

namespace DefaultExpander

/-- The phonetic-gating logic of `DefaultExpander::Expand` (lines 494-529
of `default.c`).  Returns a validation error (`QUERY_EINVAL`, "field does
not support phonetics") exactly when the source sets it, and otherwise
whether `PhoneticExpander::Expand` is invoked for the token.  The synonym
and stemmer sub-expanders run unconditionally around this logic and have
no failure path here. -/
def Expand (spec : IndexSpec) (phoneticOpt : PhoneticOpt) (fieldMask : ℕ) :
    Except String Bool :=
  if phoneticOpt = .default then
    let phonetic : PhoneticOpt :=
      if CheckPhoneticEnabled spec fieldMask then .enabled else .default
    .ok (phonetic = .enabled)
  else
    let isValid : Bool :=
      if fieldMask = RS_FIELDMASK_ALL then spec.hasPhonetic
      else (List.range spec.fields.length).any
        (fun ii => fieldMask.testBit ii && (spec.fields.getD ii ⟨false⟩).phonetics)
    if isValid = false then .error "field does not support phonetics"
    else .ok (phoneticOpt = .enabled)

end DefaultExpander

namespace IndexResult

/-- The TF-IDF child loop computes each child's TF-IDF score. -/
theorem TFIDFScorerList_map_fst (ex : Bool) (l : List IndexResult) :
    (TFIDFScorerList ex l).map Prod.fst = l.map (fun c => (TFIDFScorerNode ex c).1) := by
  induction l with
  | nil => simp [TFIDFScorerList]
  | cons c cs ih => simp [TFIDFScorerList, ih]

/-- The BM25 child loop computes each child's BM25 score. -/
theorem BM25ScorerList_map_fst (ex : Bool) (avgDocLen : ℚ) (l : List IndexResult) :
    (BM25ScorerList ex avgDocLen l).map Prod.fst
      = l.map (fun c => (BM25ScorerNode ex avgDocLen c).1) := by
  induction l with
  | nil => simp [BM25ScorerList]
  | cons c cs ih => simp [BM25ScorerList, ih]

/-- The DisMax child loop computes each child's DisMax score. -/
theorem DisMaxScorerList_map_fst (ex : Bool) (l : List IndexResult) :
    (DisMaxScorerList ex l).map Prod.fst = l.map (fun c => (DisMaxScorerNode ex c).1) := by
  induction l with
  | nil => simp [DisMaxScorerList]
  | cons c cs ih => simp [DisMaxScorerList, ih]

mutual

/-- The numeric TF-IDF value of a node does not depend on whether an
explain tree is being built. -/
theorem TFIDF_fst_explain_inv : ∀ (r : IndexResult),
    (TFIDFScorerNode true r).1 = (TFIDFScorerNode false r).1
  | .term w f tm o => by cases tm <;> simp [TFIDFScorerNode]
  | .virt w f o => by simp [TFIDFScorerNode]
  | .agg w f o cs => by
      simp [TFIDFScorerNode, TFIDFScorerAgg, TFIDFList_fst_explain_inv cs]
  | .intersect w f o cs => by
      simp [TFIDFScorerNode, TFIDFScorerAgg, TFIDFList_fst_explain_inv cs]
  | .union w f o cs => by
      simp [TFIDFScorerNode, TFIDFScorerAgg, TFIDFList_fst_explain_inv cs]
termination_by r => (sizeOf r, 0)

/-- The numeric TF-IDF values of a child list do not depend on the explain
flag. -/
theorem TFIDFList_fst_explain_inv : ∀ (l : List IndexResult),
    (TFIDFScorerList true l).map Prod.fst = (TFIDFScorerList false l).map Prod.fst
  | [] => by simp [TFIDFScorerList]
  | c :: cs => by
      simp [TFIDFScorerList, TFIDF_fst_explain_inv c, TFIDFList_fst_explain_inv cs]
termination_by l => (sizeOf l, 0)

end

mutual

/-- The numeric BM25 value of a node does not depend on whether an explain
tree is being built. -/
theorem BM25_fst_explain_inv : ∀ (avgDocLen : ℚ) (r : IndexResult),
    (BM25ScorerNode true avgDocLen r).1 = (BM25ScorerNode false avgDocLen r).1
  | _, .term w f tm o => by cases tm <;> simp [BM25ScorerNode]
  | _, .virt w f o => by
      by_cases hf : f = 0 <;> simp [BM25ScorerNode, hf]
  | avg, .agg w f o cs => by
      simp [BM25ScorerNode, BM25ScorerAgg, BM25List_fst_explain_inv avg cs]
  | avg, .intersect w f o cs => by
      simp [BM25ScorerNode, BM25ScorerAgg, BM25List_fst_explain_inv avg cs]
  | avg, .union w f o cs => by
      simp [BM25ScorerNode, BM25ScorerAgg, BM25List_fst_explain_inv avg cs]
termination_by _ r => (sizeOf r, 0)

/-- The numeric BM25 values of a child list do not depend on the explain
flag. -/
theorem BM25List_fst_explain_inv : ∀ (avgDocLen : ℚ) (l : List IndexResult),
    (BM25ScorerList true avgDocLen l).map Prod.fst
      = (BM25ScorerList false avgDocLen l).map Prod.fst
  | _, [] => by simp [BM25ScorerList]
  | avg, c :: cs => by
      simp [BM25ScorerList, BM25_fst_explain_inv avg c, BM25List_fst_explain_inv avg cs]
termination_by _ l => (sizeOf l, 0)

end

mutual

/-- The numeric DisMax value of a node does not depend on whether an
explain tree is being built. -/
theorem DisMax_fst_explain_inv : ∀ (r : IndexResult),
    (DisMaxScorerNode true r).1 = (DisMaxScorerNode false r).1
  | .term w f tm o => by simp [DisMaxScorerNode]
  | .virt w f o => by simp [DisMaxScorerNode]
  | .agg w f o cs => by
      simp [DisMaxScorerNode, DisMaxScorerSum, DisMaxList_fst_explain_inv cs]
  | .intersect w f o cs => by
      simp [DisMaxScorerNode, DisMaxScorerSum, DisMaxList_fst_explain_inv cs]
  | .union w f o cs => by
      simp [DisMaxScorerNode, DisMaxScorerMax, DisMaxList_fst_explain_inv cs]
termination_by r => (sizeOf r, 0)

/-- The numeric DisMax values of a child list do not depend on the explain
flag. -/
theorem DisMaxList_fst_explain_inv : ∀ (l : List IndexResult),
    (DisMaxScorerList true l).map Prod.fst = (DisMaxScorerList false l).map Prod.fst
  | [] => by simp [DisMaxScorerList]
  | c :: cs => by
      simp [DisMaxScorerList, DisMax_fst_explain_inv c, DisMaxList_fst_explain_inv cs]
termination_by l => (sizeOf l, 0)

end

end IndexResult

/-- The initial accumulator is a lower bound of a `foldl max`. -/
theorem foldl_max_init_le (l : List ℚ) : ∀ (a : ℚ), a ≤ l.foldl max a := by
  induction l with
  | nil => intro a; simp
  | cons x l ih =>
      intro a
      calc a ≤ max a x := le_max_left a x
        _ ≤ (x :: l).foldl max a := by simpa [List.foldl] using ih (max a x)

/-- Every element of a list is a lower bound of its `foldl max`. -/
theorem mem_le_foldl_max (l : List ℚ) : ∀ (a : ℚ), ∀ x ∈ l, x ≤ l.foldl max a := by
  induction l with
  | nil => intro a x hx; simp at hx
  | cons y l ih =>
      intro a x hx
      rcases List.mem_cons.1 hx with h | h
      · subst h
        calc x ≤ max a x := le_max_right a x
          _ ≤ (x :: l).foldl max a := by simpa [List.foldl] using foldl_max_init_le l (max a x)
      · simpa [List.foldl] using ih (max a y) x h

/-- A `foldl max` is the initial accumulator or an element of the list. -/
theorem foldl_max_mem_or_init (l : List ℚ) : ∀ (a : ℚ),
    l.foldl max a = a ∨ l.foldl max a ∈ l := by
  induction l with
  | nil => intro a; left; rfl
  | cons x l ih =>
      intro a
      have h := ih (max a x)
      rcases h with h | h
      · rcases max_choice a x with hm | hm
        · left; simpa [List.foldl, hm] using h
        · right; simp only [List.foldl] at *
          rw [h, hm]; exact List.mem_cons_self x l
      · right; simp only [List.foldl] at *
        exact List.mem_cons_of_mem x h

/-- When the list is non-empty and its elements are non-negative,
`foldl max 0` is an element of the list (and hence, with
`mem_le_foldl_max`, its maximum). -/
theorem foldl_max_zero_mem (l : List ℚ) (hne : l ≠ []) (h0 : ∀ x ∈ l, 0 ≤ x) :
    l.foldl max 0 ∈ l := by
  rcases foldl_max_mem_or_init l 0 with h | h
  · cases l with
    | nil => exact absurd rfl hne
    | cons x l =>
        have hx0 : 0 ≤ x := h0 x (List.mem_cons_self x l)
        have hxle : x ≤ (x :: l).foldl max 0 := mem_le_foldl_max _ 0 x (List.mem_cons_self x l)
        rw [h] at hxle ⊢
        have : x = 0 := le_antisymm hxle hx0
        rw [← this]
        exact List.mem_cons_self x l
  · exact h

/-- C6: Under the TF-IDF algorithm, every Term leaf node contributes
exactly `weight * freq * idf`, and every leaf without term statistics
(Virtual) contributes exactly `weight * freq`, with no proximity or
normalization applied at the per-node layer. -/
theorem claim_C6_tfidf_leaf_contribution (ex : Bool) (w : ℚ) (f : ℕ) (idf : ℚ) (o : List ℕ) :
    (IndexResult.TFIDFScorerNode ex (.term w f (some ⟨idf⟩) o)).1 = w * f * idf
    ∧ (IndexResult.TFIDFScorerNode ex (.virt w f o)).1 = w * f := by
  constructor <;> simp [IndexResult.TFIDFScorerNode]

/-- C5: Under BM25 with constants `b = 0.5` and `k1 = 1.2`, a Term leaf
contributes `idf * f / (f + k1*(1 - b + b*avgDocLen))`, and a leaf without
term statistics (Virtual) contributes
`weight * f / (f + k1*(1 - b + b*avgDocLen))` when `f > 0` and exactly `0`
when `f = 0`. -/
theorem claim_C5_bm25_leaf_contribution (ex : Bool) (avg w : ℚ) (f : ℕ) (idf : ℚ) (o : List ℕ) :
    (IndexResult.BM25ScorerNode ex avg (.term w f (some ⟨idf⟩) o)).1
      = idf * f / (f + (1.2 : ℚ) * (1 - (0.5 : ℚ) + (0.5 : ℚ) * avg))
    ∧ (0 < f → (IndexResult.BM25ScorerNode ex avg (.virt w f o)).1
      = w * f / (f + (1.2 : ℚ) * (1 - (0.5 : ℚ) + (0.5 : ℚ) * avg)))
    ∧ (f = 0 → (IndexResult.BM25ScorerNode ex avg (.virt w f o)).1 = 0) := by
  have hk : (1.2 : ℚ) = bm25_k1 := by norm_num [bm25_k1]
  have hb : (0.5 : ℚ) = bm25_b := by norm_num [bm25_b]
  refine ⟨?_, ?_, ?_⟩
  · simp [IndexResult.BM25ScorerNode, hk, hb]
  · intro hf
    have hf0 : f ≠ 0 := Nat.pos_iff_ne_zero.mp hf
    simp [IndexResult.BM25ScorerNode, hf0, hk, hb]
  · intro hf
    simp [IndexResult.BM25ScorerNode, hf]

/-- C5 witness: the BM25 leaf formulas evaluated at `avgDocLen = 4`,
`weight = 2`, `freq = 3` (and `freq = 0`), `idf = 5`. -/
theorem claim_C5_bm25_leaf_contribution_witness :
    (IndexResult.BM25ScorerNode false 4 (.term 2 3 (some ⟨5⟩) [])).1 = 5/2
    ∧ (IndexResult.BM25ScorerNode false 4 (.virt 2 3 [])).1 = 1
    ∧ (IndexResult.BM25ScorerNode false 4 (.virt 2 0 [])).1 = 0 := by
  obtain ⟨h1, h2, -⟩ := claim_C5_bm25_leaf_contribution false 4 2 3 5 []
  obtain ⟨-, -, h3⟩ := claim_C5_bm25_leaf_contribution false 4 2 0 5 []
  refine ⟨?_, ?_, h3 rfl⟩
  · rw [h1]; norm_num
  · rw [h2 (by norm_num)]; norm_num

open IndexResult in
/-- C2: every composite node kind, under every algorithm for which that
kind defines no override, contributes its weight times the sum of its
children's contributions under the same algorithm (all composite kinds
under TF-IDF and BM25, and the generic aggregate kind under DisMax),
while Union overrides only DisMax, contributing its weight times the
maximum of its children's DisMax contributions (the code's running
`MAX` starting from `0`, which is an upper bound of the children's
contributions, and one of them whenever there is a child and the
contributions are non-negative). -/
theorem claim_C2_composite_dispatch (ex : Bool) (avg w : ℚ) (f : ℕ) (o : List ℕ)
    (cs : List IndexResult) :
    (TFIDFScorerNode ex (.agg w f o cs)).1
      = w * (cs.map (fun c => (TFIDFScorerNode ex c).1)).sum
    ∧ (TFIDFScorerNode ex (.intersect w f o cs)).1
      = w * (cs.map (fun c => (TFIDFScorerNode ex c).1)).sum
    ∧ (TFIDFScorerNode ex (.union w f o cs)).1
      = w * (cs.map (fun c => (TFIDFScorerNode ex c).1)).sum
    ∧ (BM25ScorerNode ex avg (.agg w f o cs)).1
      = w * (cs.map (fun c => (BM25ScorerNode ex avg c).1)).sum
    ∧ (BM25ScorerNode ex avg (.intersect w f o cs)).1
      = w * (cs.map (fun c => (BM25ScorerNode ex avg c).1)).sum
    ∧ (BM25ScorerNode ex avg (.union w f o cs)).1
      = w * (cs.map (fun c => (BM25ScorerNode ex avg c).1)).sum
    ∧ (DisMaxScorerNode ex (.agg w f o cs)).1
      = w * (cs.map (fun c => (DisMaxScorerNode ex c).1)).sum
    ∧ (DisMaxScorerNode ex (.union w f o cs)).1
      = w * ((cs.map (fun c => (DisMaxScorerNode ex c).1)).foldl max 0)
    ∧ (∀ x ∈ cs.map (fun c => (DisMaxScorerNode ex c).1),
        x ≤ (cs.map (fun c => (DisMaxScorerNode ex c).1)).foldl max 0)
    ∧ (cs ≠ [] → (∀ c ∈ cs, 0 ≤ (DisMaxScorerNode ex c).1) →
        (cs.map (fun c => (DisMaxScorerNode ex c).1)).foldl max 0
          ∈ cs.map (fun c => (DisMaxScorerNode ex c).1)) := by
  refine ⟨?_, ?_, ?_, ?_, ?_, ?_, ?_, ?_, ?_, ?_⟩
  · cases ex <;> simp [TFIDFScorerNode, TFIDFScorerAgg, TFIDFScorerList_map_fst]
  · cases ex <;> simp [TFIDFScorerNode, TFIDFScorerAgg, TFIDFScorerList_map_fst]
  · cases ex <;> simp [TFIDFScorerNode, TFIDFScorerAgg, TFIDFScorerList_map_fst]
  · cases ex <;>
      simp [BM25ScorerNode, BM25ScorerAgg, BM25ScorerList_map_fst, mul_comm]
  · cases ex <;>
      simp [BM25ScorerNode, BM25ScorerAgg, BM25ScorerList_map_fst, mul_comm]
  · cases ex <;>
      simp [BM25ScorerNode, BM25ScorerAgg, BM25ScorerList_map_fst, mul_comm]
  · cases ex <;> simp [DisMaxScorerNode, DisMaxScorerSum, DisMaxScorerList_map_fst]
  · cases ex <;> simp [DisMaxScorerNode, DisMaxScorerMax, DisMaxScorerList_map_fst]
  · exact fun x hx => mem_le_foldl_max _ 0 x hx
  · intro hne h0
    refine foldl_max_zero_mem _ (by simpa using hne) ?_
    intro x hx
    obtain ⟨c, hc, rfl⟩ := List.mem_map.1 hx
    exact h0 c hc

open IndexResult in
/-- C2 witness: a Union node with two virtual children of DisMax
contributions `3` and `5` contributes `2 * 5 = 10`, and the running
maximum `5` is one of the children's contributions. -/
theorem claim_C2_composite_dispatch_witness :
    (DisMaxScorerNode false (.union 2 0 [] [.virt 1 3 [], .virt 1 5 []])).1 = 10
    ∧ (([IndexResult.virt 1 3 [], .virt 1 5 []].map
          (fun c => (DisMaxScorerNode false c).1)).foldl max 0
        ∈ [IndexResult.virt 1 3 [], .virt 1 5 []].map
          (fun c => (DisMaxScorerNode false c).1)) := by
  obtain ⟨-, -, -, -, -, -, -, h8, -, h10⟩ :=
    claim_C2_composite_dispatch false 0 2 0 [] [.virt 1 3 [], .virt 1 5 []]
  constructor
  · rw [h8]
    simp [DisMaxScorerNode]
    norm_num
  · refine h10 (by simp) ?_
    intro c hc
    rcases List.mem_cons.1 hc with h | h
    · subst h; simp [DisMaxScorerNode]
    · rcases List.mem_cons.1 h with h | h
      · subst h; simp [DisMaxScorerNode]
      · simp at h

/-- Shape of the default TF-IDF scorer: `normMode = NORM_MAXFREQ` picks
`maxFreq` as the normalizer. -/
theorem TFIDFScorer_shape (args : ScorerArgs) (r : IndexResult)
    (dmd : RSDocumentMetadata) (minScore : ℚ) :
    TFIDFScorer args r dmd minScore =
      if dmd.score = 0 then 0 else
        if dmd.score * (IndexResult.TFIDFScorerNode args.explain r).1 / (dmd.maxFreq : ℚ)
            < minScore then 0
        else dmd.score * (IndexResult.TFIDFScorerNode args.explain r).1 / (dmd.maxFreq : ℚ)
          / (r.MinOffsetDelta : ℚ) := rfl

/-- Shape of the doc-length-normalized TF-IDF scorer: `normMode =
NORM_DOCLEN` picks `len` as the normalizer. -/
theorem TFIDFNormDocLenScorer_shape (args : ScorerArgs) (r : IndexResult)
    (dmd : RSDocumentMetadata) (minScore : ℚ) :
    TFIDFNormDocLenScorer args r dmd minScore =
      if dmd.score = 0 then 0 else
        if dmd.score * (IndexResult.TFIDFScorerNode args.explain r).1 / (dmd.len : ℚ)
            < minScore then 0
        else dmd.score * (IndexResult.TFIDFScorerNode args.explain r).1 / (dmd.len : ℚ)
          / (r.MinOffsetDelta : ℚ) := rfl

/-- C1: both top-level TF-IDF variants return `0` for a document whose
static score is `0` regardless of the tree; otherwise, with
`tfidf = dmd.score * rawScore / norm` (norm `maxFreq` for the default
variant, `len` for the doc-length-normalized one), they return `0` when
`tfidf` is below the minimum-score threshold and `tfidf / slop`
otherwise. -/
theorem claim_C1_tfidf_top_level (args : ScorerArgs) (r : IndexResult)
    (dmd : RSDocumentMetadata) (minScore : ℚ) :
    (dmd.score = 0 →
      TFIDFScorer args r dmd minScore = 0 ∧ TFIDFNormDocLenScorer args r dmd minScore = 0)
    ∧ (dmd.score ≠ 0 →
      (dmd.score * (IndexResult.TFIDFScorerNode args.explain r).1 / (dmd.maxFreq : ℚ)
          < minScore →
        TFIDFScorer args r dmd minScore = 0)
      ∧ (¬ dmd.score * (IndexResult.TFIDFScorerNode args.explain r).1 / (dmd.maxFreq : ℚ)
          < minScore →
        TFIDFScorer args r dmd minScore
          = dmd.score * (IndexResult.TFIDFScorerNode args.explain r).1 / (dmd.maxFreq : ℚ)
            / (r.MinOffsetDelta : ℚ))
      ∧ (dmd.score * (IndexResult.TFIDFScorerNode args.explain r).1 / (dmd.len : ℚ)
          < minScore →
        TFIDFNormDocLenScorer args r dmd minScore = 0)
      ∧ (¬ dmd.score * (IndexResult.TFIDFScorerNode args.explain r).1 / (dmd.len : ℚ)
          < minScore →
        TFIDFNormDocLenScorer args r dmd minScore
          = dmd.score * (IndexResult.TFIDFScorerNode args.explain r).1 / (dmd.len : ℚ)
            / (r.MinOffsetDelta : ℚ))) := by
  have e1 := TFIDFScorer_shape args r dmd minScore
  have e2 := TFIDFNormDocLenScorer_shape args r dmd minScore
  refine ⟨fun h0 => ?_, fun hn => ?_⟩
  · exact ⟨by rw [e1, if_pos h0], by rw [e2, if_pos h0]⟩
  · refine ⟨fun hlt => ?_, fun hge => ?_, fun hlt => ?_, fun hge => ?_⟩
    · rw [e1, if_neg hn, if_pos hlt]
    · rw [e1, if_neg hn, if_neg hge]
    · rw [e2, if_neg hn, if_pos hlt]
    · rw [e2, if_neg hn, if_neg hge]

/-- C1 witness: a one-term tree with `weight = 1`, `freq = 2`, `idf = 3`
on a document with score `2`, `maxFreq = 4`, `len = 3`: the default
variant returns `2*6/4 = 3` and the doc-length variant `2*6/3 = 4` (slop
`1`), both above the threshold `0`; with score `0` both return `0`. -/
theorem claim_C1_tfidf_top_level_witness :
    TFIDFScorer ⟨⟨0⟩, [], false⟩ (.term 1 2 (some ⟨3⟩) []) ⟨2, 4, 3, none⟩ 0 = 3
    ∧ TFIDFNormDocLenScorer ⟨⟨0⟩, [], false⟩ (.term 1 2 (some ⟨3⟩) []) ⟨2, 4, 3, none⟩ 0 = 4
    ∧ TFIDFScorer ⟨⟨0⟩, [], false⟩ (.term 1 2 (some ⟨3⟩) []) ⟨0, 4, 3, none⟩ 0 = 0 := by
  have hraw : (IndexResult.TFIDFScorerNode false (.term 1 2 (some ⟨3⟩) [])).1 = 6 := by
    simp [IndexResult.TFIDFScorerNode]
    norm_num
  have hslop : (IndexResult.MinOffsetDelta (.term 1 2 (some ⟨3⟩) [])) = 1 := by
    simp [IndexResult.MinOffsetDelta, IndexResult.minOffsetDeltaTree, minAdj, adjDeltas]
  obtain ⟨-, h⟩ := claim_C1_tfidf_top_level ⟨⟨0⟩, [], false⟩ (.term 1 2 (some ⟨3⟩) [])
    ⟨2, 4, 3, none⟩ 0
  obtain ⟨-, h2, -, h4⟩ := h (by norm_num)
  obtain ⟨hz, -⟩ := claim_C1_tfidf_top_level ⟨⟨0⟩, [], false⟩ (.term 1 2 (some ⟨3⟩) [])
    ⟨0, 4, 3, none⟩ 0
  refine ⟨?_, ?_, (hz rfl).1⟩
  · rw [h2 (by rw [hraw]; norm_num)]
    rw [hraw, hslop]
    norm_num
  · rw [h4 (by rw [hraw]; norm_num)]
    rw [hraw, hslop]
    norm_num

/-- C10: the top-level BM25 scorer returns `0` whenever the document's
static score is `0`, for every tree and threshold: the product
`dmd.score * rawScore` is `0`, which is either cut off by the threshold
comparison or divided by the slop and still `0`. -/
theorem claim_C10_bm25_zero_doc_score (args : ScorerArgs) (r : IndexResult)
    (dmd : RSDocumentMetadata) (minScore : ℚ) (h : dmd.score = 0) :
    BM25Scorer args r dmd minScore = 0 := by
  unfold BM25Scorer
  simp only [h, zero_mul]
  split <;> simp

/-- C10 witness: BM25 at a zero-score document, once with a positive
threshold (cut off) and once with a negative threshold (divided by the
slop), both `0`. -/
theorem claim_C10_bm25_zero_doc_score_witness :
    BM25Scorer ⟨⟨2⟩, [], false⟩ (.virt 1 1 []) ⟨0, 1, 1, none⟩ 1 = 0
    ∧ BM25Scorer ⟨⟨2⟩, [], false⟩ (.virt 1 1 []) ⟨0, 1, 1, none⟩ (-1) = 0 :=
  ⟨claim_C10_bm25_zero_doc_score ⟨⟨2⟩, [], false⟩ (.virt 1 1 []) ⟨0, 1, 1, none⟩ 1 rfl,
   claim_C10_bm25_zero_doc_score ⟨⟨2⟩, [], false⟩ (.virt 1 1 []) ⟨0, 1, 1, none⟩ (-1) rfl⟩

/-- C7: the slop the top-level TF-IDF and BM25 scores are divided by is
never `0` (a minimum positional gap of `0` is clamped to `1`), so the
proximity division is always defined: multiplying the returned score back
by the slop recovers the pre-division score exactly. -/
theorem claim_C7_slop_never_zero (r : IndexResult) :
    0 < r.MinOffsetDelta
    ∧ ((IndexResult.minOffsetDeltaTree r).getD 1 = 0 → r.MinOffsetDelta = 1)
    ∧ (∀ (args : ScorerArgs) (dmd : RSDocumentMetadata) (minScore : ℚ),
        ¬ dmd.score * (IndexResult.BM25ScorerNode args.explain args.indexStats.avgDocLen r).1
            < minScore →
        BM25Scorer args r dmd minScore * (r.MinOffsetDelta : ℚ)
          = dmd.score * (IndexResult.BM25ScorerNode args.explain args.indexStats.avgDocLen r).1)
    ∧ (∀ (args : ScorerArgs) (dmd : RSDocumentMetadata) (minScore : ℚ), dmd.score ≠ 0 →
        ¬ dmd.score * (IndexResult.TFIDFScorerNode args.explain r).1 / (dmd.maxFreq : ℚ)
            < minScore →
        TFIDFScorer args r dmd minScore * (r.MinOffsetDelta : ℚ)
          = dmd.score * (IndexResult.TFIDFScorerNode args.explain r).1 / (dmd.maxFreq : ℚ)) := by
  have hpos : 0 < r.MinOffsetDelta := by
    simp [IndexResult.MinOffsetDelta]
  have hne : ((r.MinOffsetDelta : ℚ)) ≠ 0 := by
    exact_mod_cast Nat.pos_iff_ne_zero.mp hpos
  refine ⟨hpos, ?_, ?_, ?_⟩
  · intro h0
    simp [IndexResult.MinOffsetDelta, h0]
  · intro args dmd minScore hge
    unfold BM25Scorer
    simp only [if_neg hge]
    exact div_mul_cancel₀ _ hne
  · intro args dmd minScore hn hge
    rw [TFIDFScorer_shape, if_neg hn, if_neg hge]
    exact div_mul_cancel₀ _ hne

/-- C7 witness: a tree whose tightest adjacent offsets coincide (gap `0`)
still has slop `1`, and the BM25/TF-IDF multiply-back identities hold at a
concrete document. -/
theorem claim_C7_slop_never_zero_witness :
    0 < (IndexResult.MinOffsetDelta (.term 1 2 (some ⟨3⟩) [5, 5]))
    ∧ IndexResult.MinOffsetDelta (.term 1 2 (some ⟨3⟩) [5, 5]) = 1
    ∧ BM25Scorer ⟨⟨0⟩, [], false⟩ (.term 1 2 (some ⟨3⟩) [5, 5]) ⟨1, 1, 1, none⟩ 0
        * ((IndexResult.MinOffsetDelta (.term 1 2 (some ⟨3⟩) [5, 5]) : ℕ) : ℚ)
      = 1 * (IndexResult.BM25ScorerNode false 0 (.term 1 2 (some ⟨3⟩) [5, 5])).1 := by
  obtain ⟨h1, h2, h3, -⟩ := claim_C7_slop_never_zero (.term 1 2 (some ⟨3⟩) [5, 5])
  refine ⟨h1, h2 (by simp [IndexResult.minOffsetDeltaTree, minAdj, adjDeltas, optMin]), ?_⟩
  refine h3 ⟨⟨0⟩, [], false⟩ ⟨1, 1, 1, none⟩ 0 ?_
  have : (IndexResult.BM25ScorerNode false 0 (.term 1 2 (some ⟨3⟩) [5, 5])).1
      = 3 * 2 / (2 + bm25_k1 * (1 - bm25_b + bm25_b * 0)) := by
    simp [IndexResult.BM25ScorerNode]
  rw [this]
  norm_num [bm25_k1, bm25_b]

/-- C9: for every scorer, the numeric score does not depend on whether an
explain tree was requested: running with `explain` and discarding the
tree yields the same double as running with explanation disabled. -/
theorem claim_C9_explain_invariance (stats : RSIndexStats) (qp : List ℕ)
    (r : IndexResult) (dmd : RSDocumentMetadata) (minScore : ℚ) :
    TFIDFScorer ⟨stats, qp, true⟩ r dmd minScore
      = TFIDFScorer ⟨stats, qp, false⟩ r dmd minScore
    ∧ TFIDFNormDocLenScorer ⟨stats, qp, true⟩ r dmd minScore
      = TFIDFNormDocLenScorer ⟨stats, qp, false⟩ r dmd minScore
    ∧ BM25Scorer ⟨stats, qp, true⟩ r dmd minScore
      = BM25Scorer ⟨stats, qp, false⟩ r dmd minScore
    ∧ DisMaxScorer ⟨stats, qp, true⟩ r dmd minScore
      = DisMaxScorer ⟨stats, qp, false⟩ r dmd minScore
    ∧ HammingDistanceScorer ⟨stats, qp, true⟩ r dmd minScore
      = HammingDistanceScorer ⟨stats, qp, false⟩ r dmd minScore
    ∧ DocScoreScorer ⟨stats, qp, true⟩ r dmd minScore
      = DocScoreScorer ⟨stats, qp, false⟩ r dmd minScore := by
  refine ⟨?_, ?_, ?_, ?_, ?_, ?_⟩
  · unfold TFIDFScorer IndexResult.TFIDFScorerTop
    simp [IndexResult.TFIDF_fst_explain_inv r]
  · unfold TFIDFNormDocLenScorer IndexResult.TFIDFScorerTop
    simp [IndexResult.TFIDF_fst_explain_inv r]
  · unfold BM25Scorer
    simp [IndexResult.BM25_fst_explain_inv stats.avgDocLen r]
  · unfold DisMaxScorer
    simp [IndexResult.DisMax_fst_explain_inv r]
  · unfold HammingDistanceScorer
    rfl
  · rfl

/-- XOR-ing a payload with itself yields no differing bits. -/
theorem hamming_self_sum_zero (p : List ℕ) :
    ((p.zip p).map (fun q => bitsinbyte.getD ((q.1 ^^^ q.2) % 256) 0)).sum = 0 := by
  induction p with
  | nil => rfl
  | cons x p ih =>
      simp only [List.zip_cons_cons, List.map_cons, List.sum_cons, ih, Nat.xor_self]
      rfl

/-- Shape of the Hamming-distance scorer for a present document payload. -/
theorem HammingDistanceScorer_shape (args : ScorerArgs) (h : IndexResult)
    (dmd : RSDocumentMetadata) (minScore : ℚ) (p : List ℕ) (hp : dmd.payload = some p) :
    HammingDistanceScorer args h dmd minScore =
      if p.length = 0 ∨ p.length ≠ args.payload.length then 0
      else 1 / ((((args.payload.zip p).map
          (fun q => bitsinbyte.getD ((q.1 ^^^ q.2) % 256) 0)).sum : ℚ) + 1) := by
  unfold HammingDistanceScorer
  rw [hp]

/-- C4: the Hamming-distance scorer returns `0` whenever the query payload
and the document payload are not both non-empty and of equal length;
otherwise it returns `1 / (bitsDiffering + 1)`, so two equal non-empty
payloads score exactly `1`. -/
theorem claim_C4_hamming (args : ScorerArgs) (h : IndexResult) (dmd : RSDocumentMetadata)
    (minScore : ℚ) :
    (dmd.payload = none → HammingDistanceScorer args h dmd minScore = 0)
    ∧ (∀ p, dmd.payload = some p → p.length = 0 ∨ p.length ≠ args.payload.length →
        HammingDistanceScorer args h dmd minScore = 0)
    ∧ (∀ p, dmd.payload = some p → p.length ≠ 0 → p.length = args.payload.length →
        HammingDistanceScorer args h dmd minScore
          = 1 / ((((args.payload.zip p).map
              (fun q => bitsinbyte.getD ((q.1 ^^^ q.2) % 256) 0)).sum : ℚ) + 1))
    ∧ (∀ p, dmd.payload = some p → p ≠ [] → args.payload = p →
        HammingDistanceScorer args h dmd minScore = 1) := by
  refine ⟨fun h0 => ?_, fun p hp hbad => ?_, fun p hp hne hlen => ?_, fun p hp hne hq => ?_⟩
  · unfold HammingDistanceScorer
    rw [h0]
  · rw [HammingDistanceScorer_shape args h dmd minScore p hp, if_pos hbad]
  · rw [HammingDistanceScorer_shape args h dmd minScore p hp,
      if_neg (by push_neg; exact ⟨hne, hlen⟩)]
  · have hlen : p.length ≠ 0 := Nat.pos_iff_ne_zero.mp (List.length_pos.2 hne)
    rw [HammingDistanceScorer_shape args h dmd minScore p hp,
      if_neg (by push_neg; exact ⟨hlen, by rw [hq]⟩), hq, hamming_self_sum_zero p]
    norm_num

/-- C4 witness: equal non-empty payloads `[7, 8]` score `1`; the 1-byte
pair `0x00` vs `0xFF` scores `1/9`; mismatched lengths score `0`. -/
theorem claim_C4_hamming_witness :
    HammingDistanceScorer ⟨⟨0⟩, [7, 8], false⟩ (.virt 1 0 []) ⟨1, 1, 1, some [7, 8]⟩ 0 = 1
    ∧ HammingDistanceScorer ⟨⟨0⟩, [0], false⟩ (.virt 1 0 []) ⟨1, 1, 1, some [255]⟩ 0 = 1/9
    ∧ HammingDistanceScorer ⟨⟨0⟩, [1], false⟩ (.virt 1 0 []) ⟨1, 1, 1, some [1, 2]⟩ 0 = 0 := by
  refine ⟨?_, ?_, ?_⟩
  · exact (claim_C4_hamming ⟨⟨0⟩, [7, 8], false⟩ (.virt 1 0 []) ⟨1, 1, 1, some [7, 8]⟩ 0).2.2.2
      [7, 8] rfl (by decide) rfl
  · have h := (claim_C4_hamming ⟨⟨0⟩, [0], false⟩ (.virt 1 0 []) ⟨1, 1, 1, some [255]⟩ 0).2.2.1
      [255] rfl (by decide) (by decide)
    rw [h]
    have hb : ((([0].zip [255]).map
        (fun q => bitsinbyte.getD ((q.1 ^^^ q.2) % 256) 0)).sum) = 8 := by decide
    rw [hb]
    norm_num
  · exact (claim_C4_hamming ⟨⟨0⟩, [1], false⟩ (.virt 1 0 []) ⟨1, 1, 1, some [1, 2]⟩ 0).2.1
      [1, 2] rfl (by decide)

/-- Shape of the latin stemmer expansion for a successful stem. -/
theorem ExpandLatin_some (st token : List Char) :
    StemmerExpander.ExpandLatin (some st) token =
      if st.length ≠ token.length ∨ st.take token.length ≠ token
      then [STEM_PREFIX :: st, st] else [STEM_PREFIX :: st] := rfl

/-- C3 counterexample: stemming `running` to `run` emits the prefixed stem
and the raw stem — the original token `running` is not among the emitted
alternatives, contradicting the claim that the second emission is the
original unstemmed token. -/
theorem claim_C3_counterexample :
    StemmerExpander.ExpandLatin (some ['r', 'u', 'n']) ['r', 'u', 'n', 'n', 'i', 'n', 'g']
      = [STEM_PREFIX :: ['r', 'u', 'n'], ['r', 'u', 'n']]
    ∧ ['r', 'u', 'n', 'n', 'i', 'n', 'g'] ∉
        StemmerExpander.ExpandLatin (some ['r', 'u', 'n']) ['r', 'u', 'n', 'n', 'i', 'n', 'g'] := by
  constructor
  · decide
  · decide

/-- C3 (amended): for every token whose stem is computed successfully, the
expander emits the stem prefixed with the one-byte stem marker; when the
stem differs from the original token text it additionally emits the raw
unprefixed stem as a second alternative, and when the stem equals the raw
text it emits exactly one additional token (the prefixed stem), not
two. -/
theorem claim_C3_stemmer_amended (st token : List Char) :
    (StemmerExpander.ExpandLatin (some st) token).head? = some (STEM_PREFIX :: st)
    ∧ (st ≠ token →
        StemmerExpander.ExpandLatin (some st) token = [STEM_PREFIX :: st, st])
    ∧ (st = token →
        StemmerExpander.ExpandLatin (some st) token = [STEM_PREFIX :: st]) := by
  refine ⟨?_, fun hne => ?_, fun heq => ?_⟩
  · rw [ExpandLatin_some]
    split <;> rfl
  · have hc : st.length ≠ token.length ∨ st.take token.length ≠ token := by
      by_cases hl : st.length = token.length
      · right
        have ht : st.take token.length = st := by rw [← hl]; exact List.take_length st
        rw [ht]; exact hne
      · left; exact hl
    rw [ExpandLatin_some, if_pos hc]
  · subst heq
    have hc : ¬(st.length ≠ st.length ∨ st.take st.length ≠ st) := by
      push_neg
      exact ⟨rfl, List.take_length st⟩
    rw [ExpandLatin_some, if_neg hc]

/-- C3 witness for the amended claim: a stem equal to its token emits one
token; a differing stem emits the prefixed stem then the raw stem. -/
theorem claim_C3_stemmer_amended_witness :
    StemmerExpander.ExpandLatin (some ['a']) ['a'] = [STEM_PREFIX :: ['a']]
    ∧ StemmerExpander.ExpandLatin (some ['a']) ['a', 'b']
      = [STEM_PREFIX :: ['a'], ['a']] :=
  ⟨(claim_C3_stemmer_amended ['a'] ['a']).2.2 rfl,
   (claim_C3_stemmer_amended ['a'] ['a', 'b']).2.1 (by decide)⟩

/-- C8: with the per-query phonetic option force-enabled or
force-disabled, the default expander validates the token's field mask
against per-field phonetic capability and fails with the validation error
exactly when none of the requested fields supports phonetics (for the
all-fields mask: when no field of the index is phonetic, the
`Index_HasPhonetic` flag being coherent with the field list); with the
default tri-state it never errors, and phonetic expansion runs exactly
when a phonetically-enabled field matches the mask. -/
theorem claim_C8_phonetic_validation (spec : IndexSpec) (opt : PhoneticOpt) (mask : ℕ)
    (hflag : spec.hasPhonetic = spec.fields.any (fun fs => fs.phonetics)) :
    ((opt = .enabled ∨ opt = .disabled) →
      ((DefaultExpander.Expand spec opt mask = .error "field does not support phonetics")
        ↔ (if mask = RS_FIELDMASK_ALL
            then ¬ ∃ fs ∈ spec.fields, fs.phonetics = true
            else ¬ ∃ ii ∈ List.range spec.fields.length,
                mask.testBit ii = true ∧ (spec.fields.getD ii ⟨false⟩).phonetics = true)))
    ∧ (opt = .default →
        DefaultExpander.Expand spec opt mask = .ok (CheckPhoneticEnabled spec mask)) := by
  constructor
  · intro hopt
    have hne : opt ≠ .default := by
      rcases hopt with h | h <;> subst h <;> intro hcontra <;> cases hcontra
    unfold DefaultExpander.Expand
    rw [if_neg hne]
    by_cases hall : mask = RS_FIELDMASK_ALL
    · rw [if_pos hall, if_pos hall, hflag]
      by_cases hany : spec.fields.any (fun fs => fs.phonetics) = true
      · simp only [hany]
        constructor
        · intro hcontra
          simp at hcontra
        · intro hno
          exfalso
          obtain ⟨fs, hfs, hp⟩ := List.any_eq_true.1 hany
          exact hno ⟨fs, hfs, hp⟩
      · have hfalse : spec.fields.any (fun fs => fs.phonetics) = false :=
          Bool.eq_false_iff.mpr hany
        simp only [hfalse]
        constructor
        · intro _
          intro hcontra
          obtain ⟨fs, hfs, hp⟩ := hcontra
          exact hany (List.any_eq_true.2 ⟨fs, hfs, hp⟩)
        · intro _
          rfl
    · rw [if_neg hall, if_neg hall]
      set b := (List.range spec.fields.length).any
        (fun ii => mask.testBit ii && (spec.fields.getD ii ⟨false⟩).phonetics) with hb
      by_cases hbv : b = true
      · simp only [hbv]
        constructor
        · intro hcontra
          simp at hcontra
        · intro hno
          exfalso
          obtain ⟨ii, hii, hp⟩ := List.any_eq_true.1 hbv
          rw [Bool.and_eq_true] at hp
          exact hno ⟨ii, hii, hp.1, hp.2⟩
      · have hfalse : b = false := Bool.eq_false_iff.mpr hbv
        simp only [hfalse]
        constructor
        · intro _
          intro hcontra
          obtain ⟨ii, hii, ht, hp⟩ := hcontra
          refine hbv (List.any_eq_true.2 ⟨ii, hii, ?_⟩)
          rw [Bool.and_eq_true]
          exact ⟨ht, hp⟩
        · intro _
          rfl
  · intro hopt
    subst hopt
    unfold DefaultExpander.Expand
    rw [if_pos rfl]
    by_cases hc : CheckPhoneticEnabled spec mask = true
    · simp [hc]
    · have hf : CheckPhoneticEnabled spec mask = false := Bool.eq_false_iff.mpr hc
      simp [hf]

/-- C8 witness: an index with a non-phonetic field 0 and a phonetic
field 1; requesting force-enabled phonetics on field 0 only fails with the
validation error, while the default tri-state silently skips phonetic
expansion on the same mask. -/
theorem claim_C8_phonetic_validation_witness :
    DefaultExpander.Expand ⟨[⟨false⟩, ⟨true⟩], true⟩ .enabled 1
      = .error "field does not support phonetics"
    ∧ DefaultExpander.Expand ⟨[⟨false⟩, ⟨true⟩], true⟩ .default 1 = .ok false := by
  obtain ⟨h1, h2⟩ := claim_C8_phonetic_validation ⟨[⟨false⟩, ⟨true⟩], true⟩ .enabled 1 (by decide)
  obtain ⟨-, h4⟩ := claim_C8_phonetic_validation ⟨[⟨false⟩, ⟨true⟩], true⟩ .default 1 (by decide)
  constructor
  · apply (h1 (Or.inl rfl)).2
    have hno : (1 : ℕ) ≠ RS_FIELDMASK_ALL := by
      intro hcontra
      have : (1 : ℕ) < 2 ^ 128 - 1 := by norm_num
      rw [RS_FIELDMASK_ALL] at hcontra
      omega
    rw [if_neg hno]
    decide
  · rw [h4 rfl]
    have : CheckPhoneticEnabled ⟨[⟨false⟩, ⟨true⟩], true⟩ 1 = false := by decide
    rw [this]

end RediSearch
